import Mathlib

/-!
Verification of the media-localization pipeline of the ai-video-editor
repository.  The JavaScript services (captionService, translationService,
voiceoverService, videoProcessingService) and the editing routes are shallowly
embedded below: pure text manipulation is translated to Lean functions over
strings and character lists, JavaScript numbers are modelled as rationals,
fallible asynchronous calls (network requests, ffmpeg invocations, database
saves) are modelled as Except values or Booleans supplied by an environment
record, and each ffmpeg invocation is modelled by its effect on stream
durations.  JavaScript string length counts UTF-16 code units; for the ASCII
inputs used in all witnesses and counterexamples it coincides with the Lean
character count used here.
-/

/-- A caption segment with start and stop seconds and a text, as built by
captionService (objects of shape startTime, endTime, text). -/
structure Caption where
  startTime : ℚ
  endTime : ℚ
  text : String
deriving DecidableEq, Repr

/-- A transcribed word carrying start and stop seconds, as consumed by the
word-grouping loops of captionService (Whisper and AssemblyAI branches).
The source field named end is renamed stop because end is a Lean keyword. -/
structure WordTs where
  word : String
  start : ℚ
  stop : ℚ
deriving DecidableEq, Repr

/-! ## Character-level string utilities

The JavaScript string methods used by the services are modelled over
List Char.  jsTrim models String.prototype.trim; splitCharPred models
String.prototype.split on a single-character class. -/

/-- Model of the JavaScript trim: remove whitespace from both ends. -/
def trimChars (cs : List Char) : List Char :=
  ((cs.dropWhile Char.isWhitespace).reverse.dropWhile Char.isWhitespace).reverse

/-- Model of the JavaScript trim on strings. -/
def jsTrim (s : String) : String :=
  String.mk (trimChars s.toList)

/-- Split a character list at every character satisfying p, keeping empty
pieces, exactly as the JavaScript split on a one-character regular expression
class does.  The caption service splits on the class of sentence-ending
punctuation written as one-or-more; splitting on a run of separators and
splitting one separator at a time differ only in extra empty pieces, and the
caption service filters out blank pieces immediately afterwards, so the
composite behaviour is identical. -/
def splitCharPred (p : Char → Bool) : List Char → List (List Char)
  | [] => [[]]
  | c :: rest =>
    if p c then [] :: splitCharPred p rest
    else
      match splitCharPred p rest with
      | [] => [[c]]
      | h :: t => (c :: h) :: t

/-- Sentence-ending punctuation of the caption service regular expressions. -/
def isSentEnd (c : Char) : Bool :=
  c = '.' || c = '!' || c = '?'

/-- Single-pass scanner behind the JavaScript split on the regular expression
comma followed by one-or-more whitespace.  The accumulator cur holds the
current piece reversed; the flag records that the scanner is inside the
greedy whitespace run of a separator, whose characters are consumed without
being added to any piece.  A separator is a comma whose next character is
whitespace. -/
def splitCommaWsAux : List Char → List Char → Bool → List (List Char)
  | [], cur, _ => [cur.reverse]
  | c :: rest, cur, skipping =>
    if skipping && c.isWhitespace then splitCommaWsAux rest cur true
    else if c = ',' && rest.head?.any Char.isWhitespace then
      cur.reverse :: splitCommaWsAux rest [] true
    else splitCommaWsAux rest (c :: cur) false

/-- Model of the JavaScript split on the regular expression comma followed by
one-or-more whitespace, used by splitIntoSentences for long sentences: each
separator is a comma immediately followed by at least one whitespace
character, consumed greedily together with the whitespace run. -/
def splitCommaWs (l : List Char) : List (List Char) :=
  splitCommaWsAux l [] false

/-! ## splitIntoSentences — captionService.splitIntoSentences

Embeds the caption service text chunker (the version that splits on the
punctuation class without lookbehind, so the punctuation is removed):
split into trimmed non-blank sentences, push sentences of length at most 80
directly, split longer sentences on comma boundaries, and split still longer
parts into chunks of whole words packed greedily up to 80 characters. -/

/-- The constant MAX_CAPTION_LENGTH of captionService. -/
def MAX_CAPTION_LENGTH : ℕ := 80

/-- The single-space separator class of the word-level split. -/
def isSpaceChar (c : Char) : Bool :=
  c == ' '

/-- One step of the greedy word-packing loop of splitIntoSentences.  The
state is the list of chunks pushed so far together with the current chunk.
Mirrors: if chunk plus space plus word fits in 80 then extend chunk
(with a separating space only when chunk is nonempty), else push the chunk
when nonempty and restart from the word. -/
def wordPackStep (st : List String × String) (word : String) : List String × String :=
  if (st.2 ++ " " ++ word).length ≤ MAX_CAPTION_LENGTH then
    (st.1, if st.2 = "" then word else st.2 ++ " " ++ word)
  else
    ((if st.2 = "" then st.1 else st.1 ++ [st.2]), word)

/-- The word-packing loop over the words of an over-long part, with the final
push of a nonempty trailing chunk. -/
def wordPack (words : List String) : List String :=
  let st := words.foldl wordPackStep ([], "")
  if st.2 = "" then st.1 else st.1 ++ [st.2]

/-- Processing of one comma-delimited part: push it whole when it fits in 80
characters, else split it on single spaces (the JavaScript split on a space
keeps empty pieces) and pack whole words greedily. -/
def processPart (result : List String) (part : String) : List String :=
  if part.length ≤ MAX_CAPTION_LENGTH then result ++ [part]
  else result ++ wordPack ((splitCharPred isSpaceChar part.toList).map String.mk)

/-- Processing of one sentence: push it whole when it fits in 80 characters,
else process its comma-delimited parts in order. -/
def processSentence (result : List String) (sentence : String) : List String :=
  if sentence.length ≤ MAX_CAPTION_LENGTH then result ++ [sentence]
  else ((splitCommaWs sentence.toList).map String.mk).foldl processPart result

/-- captionService.splitIntoSentences: split the text on runs of
sentence-ending punctuation, trim each piece and drop blank pieces, then
apply the 80-character cap with the comma and word fallbacks. -/
def splitIntoSentences (text : String) : List String :=
  let sentences :=
    ((splitCharPred isSentEnd text.toList).map (fun cs => jsTrim (String.mk cs))).filter
      (fun s => s ≠ "")
  sentences.foldl processSentence []

/-! ## Google-TTS chunking — voiceoverService.generateFreeTTS

Embeds the long-text branch of generateFreeTTS: match all complete sentences
(runs of non-punctuation followed by runs of sentence-ending punctuation),
fall back to the whole text when there is no match, then greedily group
consecutive sentences into chunks of at most 200 characters. -/

/-- The constant MAX_CHARS of generateFreeTTS (Google TTS request limit). -/
def MAX_CHARS : ℕ := 200

/-- Single-pass scanner behind the JavaScript global match of one-or-more
non-terminators followed by one-or-more sentence terminators.  The
accumulator cur holds the current candidate match reversed; the flag records
that the scanner is inside the trailing punctuation run of a match.  Leading
punctuation with no body is skipped, and a trailing body with no closing
punctuation is dropped, exactly as with the regular expression. -/
def reSentAux : List Char → List Char → Bool → List (List Char)
  | [], cur, inPunct => if inPunct then [cur.reverse] else []
  | c :: rest, cur, inPunct =>
    if isSentEnd c then
      if cur.isEmpty then reSentAux rest [] false
      else reSentAux rest (c :: cur) true
    else
      if inPunct then cur.reverse :: reSentAux rest [c] false
      else reSentAux rest (c :: cur) false

/-- Model of the JavaScript global match of one-or-more non-terminators
followed by one-or-more sentence terminators, used by generateFreeTTS to
split long text into sentences. -/
def reSentences (l : List Char) : List (List Char) :=
  reSentAux l [] false

/-- One step of the sentence-grouping loop of generateFreeTTS: extend the
current chunk while the concatenation stays within 200 characters, else push
the trimmed current chunk when nonempty and restart from the sentence. -/
def freeChunkStep (st : List String × String) (sentence : String) : List String × String :=
  if (st.2 ++ sentence).length ≤ MAX_CHARS then (st.1, st.2 ++ sentence)
  else ((if st.2 = "" then st.1 else st.1 ++ [jsTrim st.2]), sentence)

/-- The chunk list consumed by the per-chunk Google TTS requests of
generateFreeTTS: sentences from the global match (or the whole text when the
match is null), grouped greedily under 200 characters, each pushed chunk
trimmed. -/
def chunksFreeTTS (text : String) : List String :=
  let sentences :=
    match (reSentences text.toList).map String.mk with
    | [] => [text]
    | s => s
  let st := sentences.foldl freeChunkStep ([], "")
  if st.2 = "" then st.1 else st.1 ++ [jsTrim st.2]

/-! ## Whitespace normalization

Formalizes the phrase modulo whitespace normalization of the specification:
collapse every whitespace run to a single space and trim the ends. -/

/-- Collapse whitespace runs to single spaces and trim both ends. -/
def normalizeWhitespace (s : String) : String :=
  String.intercalate " "
    (((splitCharPred Char.isWhitespace s.toList).map String.mk).filter (fun t => t ≠ ""))

/-! ## Script alignment — captionService.generateFromScript

JavaScript numbers are modelled as rationals; Math.round is the
round-half-up floor. -/

/-- Model of the JavaScript Math.round: floor of the argument plus one half. -/
def jsRound (q : ℚ) : ℤ :=
  ⌊q + 1/2⌋

/-- Rounding to one decimal as written in the source:
Math.round of ten times the value, divided by ten. -/
def round10 (q : ℚ) : ℚ :=
  (jsRound (q * 10) : ℚ) / 10

/-- captionService.generateFromScript: an empty or blank script yields no
captions; otherwise the script is split by splitIntoSentences, the video
duration is divided evenly among the sentences, and caption i covers the
rounded interval from i to i plus one times the share, with the sentence
trimmed. -/
def generateFromScript (scriptText : String) (videoDuration : ℚ) : List Caption :=
  if jsTrim scriptText = "" then []
  else
    let sentences := splitIntoSentences scriptText
    let timePerSentence := videoDuration / (sentences.length : ℚ)
    sentences.enum.map fun is =>
      { startTime := round10 ((is.1 : ℚ) * timePerSentence)
        endTime := round10 (((is.1 : ℚ) + 1) * timePerSentence)
        text := jsTrim is.2 }

/-! ## Transcription alignment — word grouping of captionService

Embeds the word loops of generateWithWhisperAPI and
generateWithFreeAlternative: consecutive words are accumulated into the
current caption; the caption is flushed as soon as it holds 8 words, or
spans at least 5 seconds, or the last word has been consumed. -/

/-- The grouping loop: cur is the word list of the caption under
construction.  The caption start is the start of its first word (set when
the first word is added) and its stop is the stop of the word just added;
the flush test compares the accumulated count with 8, the span with 5
seconds, and checks whether the word just consumed was the last. -/
def groupGo : List WordTs → List WordTs → List (List WordTs)
  | _, [] => []
  | cur, w :: rest =>
    let added := cur ++ [w]
    let segStart := match cur.head? with
      | some h => h.start
      | none => w.start
    if 8 ≤ added.length ∨ 5 ≤ w.stop - segStart ∨ rest = [] then
      added :: groupGo [] rest
    else
      groupGo added rest

/-- The partition of the transcribed words into caption-sized groups. -/
def groupWords (words : List WordTs) : List (List WordTs) :=
  groupGo [] words

/-- The captions produced from the word groups: start of the first word and
stop of the last word, rounded to one decimal, and the words joined with
single spaces. -/
def whisperCaptions (words : List WordTs) : List Caption :=
  (groupWords words).map fun seg =>
    { startTime := round10 ((seg.head?.map WordTs.start).getD 0)
      endTime := round10 ((seg.getLast?.map WordTs.stop).getD 0)
      text := String.intercalate " " (seg.map WordTs.word) }

/-! ## Translation — translationService

Network responses are supplied by an environment record: each field is the
outcome of the corresponding HTTP request (ok with the payload, or error).
The ok constructor of the free field means the MyMemory request returned
responseStatus 200 with a translated text; every other situation (network
error or a different responseStatus, which the source turns into a thrown
and then caught error) is the error constructor. -/

/-- The configuration bits of config.js used by translationService. -/
structure TranslateConfig where
  googleTranslateApiKey : Option String
deriving DecidableEq, Repr

/-- Outcomes of the translation network requests for a single call. -/
structure TranslateEnv where
  google : Except String String
  free : Except String String
deriving Repr

/-- translationService.translateWithGoogleAPI: return the translated text on
success; any request error is caught and rethrown as Translation failed. -/
def translateWithGoogleAPI (resp : Except String String) : Except String String :=
  match resp with
  | .ok t => .ok t
  | .error _ => .error "Translation failed"

/-- translationService.translateFree: return the translated text on success;
any error (network failure or non-200 responseStatus) is caught and the
original text is returned unchanged. -/
def translateFree (text : String) (resp : Except String String) : String :=
  match resp with
  | .ok t => t
  | .error _ => text

/-- translationService.translateText: use the official Google API when its
key is configured, otherwise the free service. -/
def translateText (cfg : TranslateConfig) (env : TranslateEnv) (text : String) :
    Except String String :=
  if cfg.googleTranslateApiKey.isSome then translateWithGoogleAPI env.google
  else .ok (translateFree text env.free)

/-- translationService.translateCaptions: translate each caption text with
translateText, keeping the other fields via object spread; a per-caption
failure is caught and the original caption is pushed instead.  The function
tr gives the outcome of translateText on each caption text. -/
def translateCaptions (tr : String → Except String String) (captions : List Caption) :
    List Caption :=
  captions.map fun c =>
    match tr c.text with
    | .ok t => { c with text := t }
    | .error _ => c

/-! ## Speech synthesis — voiceoverService.generateVoiceover

The backend choice of generateVoiceover is driven by which API keys are
configured; the per-backend helpers catch their own request errors and
rethrow a fixed message, except the free helper, which catches everything
and returns null. -/

/-- The configuration bits of config.js used by voiceoverService. -/
structure TtsConfig where
  elevenLabsApiKey : Option String
  openaiApiKey : Option String
deriving DecidableEq, Repr

/-- Outcomes of the synthesis requests available to one generateVoiceover
call: the ElevenLabs request, the OpenAI request, and the net outcome of the
free chain (macOS say, then Google TTS with chunking). -/
structure TtsEnv where
  elevenLabs : Except String String
  openai : Except String String
  free : Except String String
deriving Repr

/-- voiceoverService.generateElevenLabsVoiceover: write the audio and return
the output path, or catch the request error and throw a fixed message. -/
def generateElevenLabsVoiceover (resp : Except String String) : Except String String :=
  match resp with
  | .ok p => .ok p
  | .error _ => .error "Failed to generate voiceover with ElevenLabs"

/-- voiceoverService.generateOpenAIVoiceover: write the audio and return the
output path, or catch the request error and throw a fixed message. -/
def generateOpenAIVoiceover (resp : Except String String) : Except String String :=
  match resp with
  | .ok p => .ok p
  | .error _ => .error "Failed to generate voiceover with OpenAI"

/-- voiceoverService.generateFreeTTS outcome: the output path on success and
null (modelled as none) when every free method failed, because the final
catch returns null instead of throwing. -/
def generateFreeTTSResult (resp : Except String String) : Option String :=
  match resp with
  | .ok p => some p
  | .error _ => none

/-- voiceoverService.generateVoiceover: ElevenLabs when its key is
configured, else OpenAI when its key is configured, else the free chain.
The value is the returned audio path; the premium helpers throw on failure
(error constructor), while the free chain returns null on failure. -/
def generateVoiceover (cfg : TtsConfig) (env : TtsEnv) : Except String (Option String) :=
  if cfg.elevenLabsApiKey.isSome then (generateElevenLabsVoiceover env.elevenLabs).map some
  else if cfg.openaiApiKey.isSome then (generateOpenAIVoiceover env.openai).map some
  else .ok (generateFreeTTSResult env.free)

/-! ## Dub speech-rate heuristic — the dub route

The route computes the characters-per-second target from the translated
text length and the probed video duration, derives the rate against the
normal pace of 12.5 characters per second, and clamps the rate passed to
synthesis into the interval from 0.1 to 3.0. -/

/-- The normal speaking pace constant of the dub route. -/
def normalCharsPerSec : ℚ := 25/2

/-- targetCharsPerSec of the dub route: translated text length over video
duration. -/
def targetCharsPerSec (textLength : ℕ) (videoDuration : ℚ) : ℚ :=
  (textLength : ℚ) / videoDuration

/-- speechRate of the dub route: the characters-per-second target divided by
the normal pace. -/
def speechRate (textLength : ℕ) (videoDuration : ℚ) : ℚ :=
  targetCharsPerSec textLength videoDuration / normalCharsPerSec

/-- The clamped rate passed to generateVoiceover by the dub route:
Math.max of 0.1 and Math.min of the rate and 3.0. -/
def clampedSpeechRate (textLength : ℕ) (videoDuration : ℚ) : ℚ :=
  max (1/10) (min (speechRate textLength videoDuration) 3)

/-! ## Durations — videoProcessingService.replaceAudio and extendAudio

The ffmpeg invocations are modelled by their effect on stream durations,
with all durations as rationals. -/

/-- Duration semantics of videoProcessingService.extendAudio.  The primary
method applies the apad filter with whole_dur set to the target, which pads
the audio up to the target and leaves it unchanged when it is already at
least as long.  When the filter fails the fallback re-encodes with a time
limit of the ceiling of the target but adds no padding, so a shorter input
keeps its own duration, and when both methods fail the original audio is
returned; in every failure mode the resulting duration is the input
duration.  The flag records whether the apad invocation succeeded. -/
def extendAudioDur (apadOk : Bool) (audioDuration targetDuration : ℚ) : ℚ :=
  if apadOk then max audioDuration targetDuration else audioDuration

/-- Duration of the container produced by the mux step of replaceAudio: the
video stream is mapped and copied unchanged, the audio stream is mapped
whole, and the shortest option was removed, so the container lasts as long
as its longest stream. -/
def muxedDuration (videoDuration audioDuration : ℚ) : ℚ :=
  max videoDuration audioDuration

/-- Duration semantics of videoProcessingService.replaceAudio: probe both
durations, extend the audio to the video duration when it is shorter, then
mux with the video stream copied and no shortest trim. -/
def replaceAudioDur (apadOk : Bool) (videoDuration audioDuration : ℚ) : ℚ :=
  muxedDuration videoDuration
    (if audioDuration < videoDuration then
      extendAudioDur apadOk audioDuration videoDuration
    else audioDuration)

/-! ## Version history — the voiceover and dub routes

A project version list is the video track of the project timeline: the first
entry is the original upload and the processed outputs are pushed at the
end.  Each route is modelled as a function of an environment record holding
the outcome of every external call it makes, in source order; the persisted
list changes only when the final save succeeds, because the database write
is the last operation before the response. -/

/-- One entry of the project video track.  The source field named type is
renamed kind because of the Lean field naming conventions; fields present
only on one record shape are optional. -/
structure VersionRecord where
  url : String
  name : String
  kind : String
  script : String
  language : String
  duration : Option ℚ
  tone : Option String
deriving DecidableEq, Repr

/-- The supported-language table of the translation service used by the
routes to resolve a display name, keyed by language code. -/
def getSupportedLanguages : List (String × String) :=
  [("en", "English"), ("hi", "Hindi"), ("es", "Spanish"),
   ("fr", "French"), ("de", "German")]

/-- Display name of a language code, falling back to the code itself. -/
def languageName (code : String) : String :=
  (getSupportedLanguages.lookup code).getD code

/-- Outcomes of the external calls of one dub route invocation, in source
order: the video file check, audio extraction, transcription, translation,
duration probe, synthesis (ok none models the free chain returning null),
the replaceAudio invocation, the output metadata probe, and the project
save. -/
structure DubEnv where
  targetLanguage : String
  tone : String
  outputFilename : String
  videoFileExists : Bool
  extractOk : Bool
  transcribe : Except String (List Caption)
  translate : Except String String
  probe : Except String ℚ
  synth : Except String (Option String)
  replaceOk : Bool
  metadata : Except String ℚ
  saveOk : Bool

/-- The record pushed on the video track by a successful dub run. -/
def dubRecord (e : DubEnv) (translated : String) (metaDuration : ℚ) : VersionRecord :=
  { url := "/uploads/videos/" ++ e.outputFilename
    name := "Dubbed - " ++ languageName e.targetLanguage
    kind := "dubbed"
    script := translated
    language := e.targetLanguage
    duration := some metaDuration
    tone := none }

/-- The dub route as a transformer of the persisted version list, returning
the error that interrupts the run or the saved list.  Mirrors the source
order: reject when the project has no video track entry or the video file is
missing, then extract audio, transcribe, join the caption texts, translate,
probe the duration, compute the clamped speech rate, synthesize (null audio
makes the subsequent replaceAudio reject), replace the audio, probe the
output metadata, push exactly one new record, and save.  Any error reaches
the route catch, and the persisted list is unchanged because the save is the
last operation. -/
def dubRunE (e : DubEnv) (versions : List VersionRecord) :
    Except String (List VersionRecord) :=
  if versions.isEmpty then .error "No video found in project"
  else if !e.videoFileExists then .error "Video file not found"
  else if !e.extractOk then .error "extractAudio failed"
  else
    match e.transcribe with
    | .error m => .error m
    | .ok caps =>
      let transcribedText := String.intercalate " " (caps.map Caption.text)
      match e.translate with
      | .error m => .error m
      | .ok translated =>
        match e.probe with
        | .error m => .error m
        | .ok videoDuration =>
          let rate := clampedSpeechRate translated.length videoDuration
          match e.synth with
          | .error m => .error m
          | .ok none => .error "replaceAudio failed: synthesized audio missing"
          | .ok (some _path) =>
            if !e.replaceOk then .error "replaceAudio failed"
            else
              match e.metadata with
              | .error m => .error m
              | .ok metaDuration =>
                if !e.saveOk then .error "save failed"
                else
                  let _ := transcribedText
                  let _ := rate
                  .ok (versions ++ [dubRecord e translated metaDuration])

/-- The dub route outcome as seen by the project store: a success flag and
the persisted version list. -/
def dubRun (e : DubEnv) (versions : List VersionRecord) : Bool × List VersionRecord :=
  match dubRunE e versions with
  | .ok vs => (true, vs)
  | .error _ => (false, versions)

/-- Whether every external call of a dub run succeeds (with synthesized
audio actually produced). -/
def dubEnvOk (e : DubEnv) : Bool :=
  e.videoFileExists && e.extractOk && e.transcribe.toOption.isSome &&
    e.translate.toOption.isSome && e.probe.toOption.isSome &&
    (match e.synth with | .ok (some _) => true | _ => false) &&
    e.replaceOk && e.metadata.toOption.isSome && e.saveOk

/-- Outcomes of the external calls of one voiceover route invocation:
synthesis (an exception aborts the run; ok none models the free chain
returning null, which later makes replaceAudio reject inside the caught
block), the video file check, the replaceAudio invocation, and the project
save. -/
structure VoiceoverEnv where
  tone : String
  language : String
  scriptText : String
  processedFilename : String
  synth : Except String (Option String)
  videoFileExists : Bool
  muxOk : Bool
  saveOk : Bool

/-- The record pushed on the video track when the voiceover route merges the
audio into the project video. -/
def voRecord (e : VoiceoverEnv) : VersionRecord :=
  { url := "/uploads/videos/processed/" ++ e.processedFilename
    name := "Voiceover (" ++ languageName e.language ++ " - " ++ e.tone ++ ")"
    kind := "processed-voiceover"
    script := e.scriptText
    language := e.language
    duration := none
    tone := some e.tone }

/-- Outcome of a voiceover route invocation: a new record was appended, or
the run succeeded with the audio artifact only, or the run failed. -/
inductive VoOutcome
  | appended
  | audioOnly
  | failed
deriving DecidableEq, Repr

/-- The voiceover route as a transformer of the persisted version list.  A
synthesis exception reaches the route catch with nothing persisted.  When
the project has a video track entry, the existing video file is found, the
synthesized audio path is non-null and replaceAudio succeeds, one record is
pushed; every failure inside that block is caught and the run continues
without a push.  The project is then saved: on save failure nothing is
persisted, otherwise the run succeeds with or without the appended
record. -/
def voiceoverRun (e : VoiceoverEnv) (versions : List VersionRecord) :
    VoOutcome × List VersionRecord :=
  match e.synth with
  | .error _ => (.failed, versions)
  | .ok voiceoverPath =>
    let pushed := !versions.isEmpty && e.videoFileExists &&
      voiceoverPath.isSome && e.muxOk
    if !e.saveOk then (.failed, versions)
    else if pushed then (.appended, versions ++ [voRecord e])
    else (.audioOnly, versions)

/-- Whether a voiceover run reaches the appended state: synthesis produced
audio, the project video file exists, the mux succeeds and the save
succeeds.  The version list must additionally be nonempty, which holds for
any project with an original upload. -/
def voEnvOk (e : VoiceoverEnv) : Bool :=
  (match e.synth with | .ok (some _) => true | _ => false) &&
    e.videoFileExists && e.muxOk && e.saveOk

/-- A workflow invocation against a project: a dub run or a voiceover
run. -/
inductive RunEnv
  | dub (e : DubEnv)
  | vo (e : VoiceoverEnv)

/-- One workflow step on the persisted version list, with success meaning
that a new version record was appended. -/
def runStep (versions : List VersionRecord) : RunEnv → Bool × List VersionRecord
  | .dub e => dubRun e versions
  | .vo e =>
    match voiceoverRun e versions with
    | (.appended, vs) => (true, vs)
    | (_, vs) => (false, vs)

/-- Whether every external call of the workflow invocation succeeds. -/
def runOk : RunEnv → Bool
  | .dub e => dubEnvOk e
  | .vo e => voEnvOk e

/-- The persisted version list after a sequence of workflow invocations. -/
def applyRuns (versions : List VersionRecord) (runs : List RunEnv) : List VersionRecord :=
  runs.foldl (fun vs r => (runStep vs r).2) versions

/-! ## Auxiliary definitions used by the theorems below -/

/-- A chunk emitted by the caption chunker is within the cap or is a single
whitespace-free word. -/
def ChunkOk (c : String) : Prop :=
  c.length ≤ MAX_CAPTION_LENGTH ∨ ' ' ∉ c.toList

/-- A single word of one hundred letters, used as an over-long unsplittable
chunk. -/
def longWord : String :=
  String.mk (List.replicate 100 'a')

/-- The original upload record of the witness project. -/
def sampleOriginal : VersionRecord :=
  { url := "/uploads/videos/base.mp4", name := "Original", kind := "original",
    script := "", language := "en", duration := none, tone := none }

/-- A dub environment whose external calls all succeed. -/
def sampleDubEnv : DubEnv :=
  { targetLanguage := "es", tone := "professional", outputFilename := "dubbed-es.mp4",
    videoFileExists := true, extractOk := true,
    transcribe := .ok [⟨0, 3, "Welcome"⟩],
    translate := .ok "Bienvenido", probe := .ok 10,
    synth := .ok (some "dubbed-audio.mp3"), replaceOk := true,
    metadata := .ok 10, saveOk := true }

/-- A voiceover environment whose external calls all succeed. -/
def sampleVoEnv : VoiceoverEnv :=
  { tone := "male", language := "en", scriptText := "Hello there.",
    processedFilename := "voiceover-1.mp4",
    synth := .ok (some "voiceover.mp3"), videoFileExists := true,
    muxOk := true, saveOk := true }


/-! ## Claim C1 — output duration of replaceAudio -/

/-- C1 counterexample: the claim is false as stated.  With a 10 second video
and a 20 second synthesized audio, replaceAudio does not extend (the audio
is not shorter) and the mux without a shortest trim keeps the longest
stream, so the output lasts 20 seconds, not within 1 second of 10.  The
claimed bound therefore does not hold regardless of the synthesized speech
duration. -/
theorem replaceAudio_duration_counterexample :
    replaceAudioDur true 10 20 = 20 ∧
      ¬ (|replaceAudioDur true 10 20 - 10| < 1) := by
  norm_num [replaceAudioDur, muxedDuration, extendAudioDur, abs_of_nonneg]

/-- C1 (amended): when the synthesized audio is not longer than the video,
the padded-and-muxed output duration equals the video duration exactly (so
in particular within 1 second); the one-second bound holds precisely when
the audio is shorter than the video duration plus one second; and when the
audio is at least as long as the video, the output duration equals the
audio duration. -/
theorem replaceAudio_duration_amended (v a : ℚ) :
    (a ≤ v → replaceAudioDur true v a = v) ∧
    (a < v + 1 → |replaceAudioDur true v a - v| < 1) ∧
    (v ≤ a → replaceAudioDur true v a = a) := by
  have key : replaceAudioDur true v a = max v a := by
    by_cases hav : a < v
    · have h1 : max a v = v := max_eq_right (le_of_lt hav)
      have h2 : max v a = v := max_eq_left (le_of_lt hav)
      simp [replaceAudioDur, extendAudioDur, muxedDuration, hav, h1, h2]
    · simp [replaceAudioDur, extendAudioDur, muxedDuration, hav]
  refine ⟨fun h => ?_, fun h => ?_, fun h => ?_⟩
  · rw [key, max_eq_left h]
  · rw [key]
    by_cases hav : a ≤ v
    · simp [max_eq_left hav]
    · push_neg at hav
      rw [max_eq_right (le_of_lt hav), abs_of_nonneg (by linarith)]
      linarith
  · rw [key, max_eq_right h]

/-- C1 witness: specification scenario 2, a 12 second video with an 8.2
second synthesized voiceover, yields an output of exactly 12 seconds. -/
theorem replaceAudio_duration_amended_witness :
    replaceAudioDur true 12 (41/5) = 12 :=
  (replaceAudio_duration_amended 12 (41/5)).1 (by norm_num)

/-! ## Claim C6 — dub speech-rate clamp -/

/-- C6: for any positive video duration and any translated text length, the
rate passed to synthesis by the dub route, namely the speech rate clamped
with Math.max 0.1 and Math.min 3.0, lies in the interval from 0.1 to 3.0. -/
theorem dub_speechRate_clamped (textLength : ℕ) (videoDuration : ℚ)
    (_hD : 0 < videoDuration) :
    1/10 ≤ clampedSpeechRate textLength videoDuration ∧
      clampedSpeechRate textLength videoDuration ≤ 3 :=
  ⟨le_max_left _ _, max_le (by norm_num) (min_le_right _ _)⟩

/-- C6 witness: specification scenario 3, an 80 character translation over a
10 second video, gives a clamped rate inside the interval (its value is
0.64). -/
theorem dub_speechRate_clamped_witness :
    1/10 ≤ clampedSpeechRate 80 10 ∧ clampedSpeechRate 80 10 ≤ 3 :=
  dub_speechRate_clamped 80 10 (by norm_num)

/-! ## Claim C7 — translation never raises -/

/-- C7 counterexample: the claim is false as stated.  When the Google
Translate API key is configured and the Google request fails, translateText
throws Translation failed instead of returning the input text. -/
theorem translateText_raises_counterexample :
    translateText ⟨some "key"⟩ ⟨.error "network error", .ok "hola"⟩ "hello"
      = .error "Translation failed" := rfl

/-- C7 (amended): when no Google Translate API key is configured,
translateText never raises, and when the free backend fails it returns the
input text unchanged.  With a configured Google key a backend failure is
rethrown as a fatal Translation failed error. -/
theorem translateText_free_never_raises (env : TranslateEnv) (text : String) :
    (∃ t, translateText ⟨none⟩ env text = .ok t) ∧
    (∀ m, env.free = .error m → translateText ⟨none⟩ env text = .ok text) := by
  constructor
  · exact ⟨translateFree text env.free, by simp [translateText]⟩
  · intro m hm
    simp [translateText, translateFree, hm]

/-- C7 witness: with no Google key and a failing free backend the input
comes back unchanged. -/
theorem translateText_free_never_raises_witness :
    translateText ⟨none⟩ ⟨.ok "unused", .error "boom"⟩ "hello" = .ok "hello" :=
  (translateText_free_never_raises ⟨.ok "unused", .error "boom"⟩ "hello").2 "boom" rfl

/-! ## Claim C3 — ranked backend fallback -/

/-- C3 counterexample: the claim is false as stated.  With both premium keys
configured and an ElevenLabs request failure, generateVoiceover surfaces a
fatal error even though the lower-ranked OpenAI backend is untried and
would succeed; likewise a configured Google key with a failing request makes
translateText fatal without trying the free translation backend. -/
theorem backend_fallback_counterexample :
    generateVoiceover ⟨some "elKey", some "oaKey"⟩
        ⟨.error "request failed", .ok "audio.mp3", .ok "free.mp3"⟩
      = .error "Failed to generate voiceover with ElevenLabs" ∧
    translateText ⟨some "gKey"⟩ ⟨.error "request failed", .ok "hola"⟩ "hello"
      = .error "Translation failed" :=
  ⟨rfl, rfl⟩

/-- C3 (amended): backend selection is by credential presence, not a ranked
fallback chain.  The first backend whose API key is configured is chosen and
its failure is surfaced immediately as a fatal error with the lower-ranked
backends untried; only when no premium key is configured does the free tier
run, and it never raises. -/
theorem backend_selection_no_fallback (cfg : TtsConfig) (env : TtsEnv)
    (tcfg : TranslateConfig) (tenv : TranslateEnv) (text m m2 : String) :
    (cfg.elevenLabsApiKey.isSome → env.elevenLabs = .error m →
      generateVoiceover cfg env = .error "Failed to generate voiceover with ElevenLabs") ∧
    (tcfg.googleTranslateApiKey.isSome → tenv.google = .error m2 →
      translateText tcfg tenv text = .error "Translation failed") ∧
    (cfg.elevenLabsApiKey = none → cfg.openaiApiKey = none →
      generateVoiceover cfg env = .ok (generateFreeTTSResult env.free)) := by
  refine ⟨fun hk hf => ?_, fun hk hf => ?_, fun h1 h2 => ?_⟩
  · simp [generateVoiceover, hk, generateElevenLabsVoiceover, hf, Except.map]
  · simp [translateText, hk, translateWithGoogleAPI, hf]
  · simp [generateVoiceover, h1, h2]

/-- C3 witness: a configured ElevenLabs key with a failed request aborts the
synthesis even though the free chain would have succeeded. -/
theorem backend_selection_no_fallback_witness :
    generateVoiceover ⟨some "elKey", none⟩ ⟨.error "boom", .ok "a.mp3", .ok "f.mp3"⟩
      = .error "Failed to generate voiceover with ElevenLabs" :=
  (backend_selection_no_fallback ⟨some "elKey", none⟩
      ⟨.error "boom", .ok "a.mp3", .ok "f.mp3"⟩ ⟨none⟩ ⟨.ok "x", .ok "y"⟩
      "t" "boom" "m").1 rfl rfl

/-! ## Claim C8 — translateCaptions frame -/

/-- C8: translateCaptions returns one caption per input caption in the same
order, the start and stop times of every position are unchanged, and a
caption whose translation fails keeps its original record (in particular
its text) instead of failing the whole set. -/
theorem translateCaptions_frame (tr : String → Except String String)
    (captions : List Caption) :
    (translateCaptions tr captions).length = captions.length ∧
    (∀ i : ℕ, ((translateCaptions tr captions)[i]?).map Caption.startTime
        = (captions[i]?).map Caption.startTime) ∧
    (∀ i : ℕ, ((translateCaptions tr captions)[i]?).map Caption.endTime
        = (captions[i]?).map Caption.endTime) ∧
    (∀ (i : ℕ) (c : Caption) (m : String), captions[i]? = some c →
      tr c.text = .error m → (translateCaptions tr captions)[i]? = some c) := by
  refine ⟨by simp [translateCaptions], fun i => ?_, fun i => ?_, fun i c m hi htr => ?_⟩
  · simp only [translateCaptions, List.getElem?_map]
    cases h : captions[i]? with
    | none => simp
    | some c =>
      cases htr : tr c.text <;> simp [htr]
  · simp only [translateCaptions, List.getElem?_map]
    cases h : captions[i]? with
    | none => simp
    | some c =>
      cases htr : tr c.text <;> simp [htr]
  · simp [translateCaptions, List.getElem?_map, hi, htr]

/-- C8 witness: a caption set of one caption with a failing translator keeps
the original caption. -/
theorem translateCaptions_frame_witness :
    (translateCaptions (fun _ => .error "Translation failed")
        [⟨0, 3, "Welcome to this video tutorial"⟩])[0]?
      = some ⟨0, 3, "Welcome to this video tutorial"⟩ :=
  (translateCaptions_frame (fun _ => .error "Translation failed")
      [⟨0, 3, "Welcome to this video tutorial"⟩]).2.2.2 0
      ⟨0, 3, "Welcome to this video tutorial"⟩ "Translation failed" rfl rfl

/-! ## Claim C10 — generateFromScript on degenerate scripts -/

/-- C10: for a script that is empty, blank, or yields no sentence-like
chunks, generateFromScript returns the empty caption list for every video
duration; the per-sentence share of the duration is computed but never
attached to any caption because the caption loop runs over the empty
sentence list. -/
theorem generateFromScript_degenerate (scriptText : String) (videoDuration : ℚ)
    (h : jsTrim scriptText = "" ∨ splitIntoSentences scriptText = []) :
    generateFromScript scriptText videoDuration = [] := by
  rcases h with h | h
  · simp [generateFromScript, h]
  · by_cases ht : jsTrim scriptText = ""
    · simp [generateFromScript, ht]
    · simp [generateFromScript, ht, h]

/-- C10 witness: a script of bare punctuation is nonblank yet yields no
sentences, and produces no captions. -/
theorem generateFromScript_degenerate_witness :
    generateFromScript "..." 5 = [] :=
  generateFromScript_degenerate "..." 5 (Or.inr (by decide))

/-! ## Claim C9 — transcription word grouping -/

/-- Flushing invariant: when the remaining words are nonempty the groups
produced by the grouping loop concatenate to the pending words followed by
the remaining words, because the loop always flushes on the last word. -/
theorem groupGo_flatten (ws : List WordTs) : ∀ cur : List WordTs, ws ≠ [] →
    (groupGo cur ws).flatten = cur ++ ws := by
  induction ws with
  | nil => intro cur h; exact absurd rfl h
  | cons w rest ih =>
    intro cur _
    rw [groupGo]
    split
    · by_cases hrest : rest = []
      · subst hrest; simp [groupGo]
      · simp [ih [] hrest]
    · rename_i hcond
      have hrest : rest ≠ [] := fun h => hcond (Or.inr (Or.inr h))
      simp [ih (cur ++ [w]) hrest]

/-- Size invariant: starting from at most 7 pending words, every group the
loop emits is nonempty and holds at most 8 words, because the loop flushes
as soon as the count reaches 8. -/
theorem groupGo_bound (ws : List WordTs) : ∀ cur : List WordTs, cur.length ≤ 7 →
    ∀ seg ∈ groupGo cur ws, seg ≠ [] ∧ seg.length ≤ 8 := by
  induction ws with
  | nil => intro cur _ seg hseg; simp [groupGo] at hseg
  | cons w rest ih =>
    intro cur hcur seg hseg
    rw [groupGo] at hseg
    split at hseg
    · rcases List.mem_cons.mp hseg with h | h
      · subst h
        refine ⟨by simp, ?_⟩
        simp only [List.length_append, List.length_singleton]
        omega
      · exact ih [] (by simp) seg h
    · rename_i hcond
      have hlen : (cur ++ [w]).length ≤ 7 := by
        have : ¬ 8 ≤ (cur ++ [w]).length := fun h => hcond (Or.inl h)
        omega
      exact ih (cur ++ [w]) hlen seg hseg

/-- C9: the word-grouping loops of the transcription alignment partition the
input words: the emitted groups concatenate back to the word sequence, so
every word lands in exactly one caption, and every group is nonempty with at
most 8 words; a group is closed as soon as it reaches 8 words, spans at
least 5 seconds, or the words are exhausted. -/
theorem transcription_grouping (words : List WordTs) :
    (groupWords words).flatten = words ∧
      ∀ seg ∈ groupWords words, seg ≠ [] ∧ seg.length ≤ 8 := by
  constructor
  · by_cases h : words = []
    · subst h; rfl
    · simpa using groupGo_flatten words [] h
  · intro seg hseg
    exact groupGo_bound words [] (by simp) seg hseg

/-- C9 witness: a two-word transcription groups into a single caption
segment holding both words. -/
theorem transcription_grouping_witness :
    (groupWords [⟨"a", 0, 1⟩, ⟨"b", 1, 2⟩]).flatten = [⟨"a", 0, 1⟩, ⟨"b", 1, 2⟩] ∧
      ([⟨"a", 0, 1⟩, ⟨"b", 1, 2⟩] : List WordTs) ≠ [] ∧
      ([⟨"a", 0, 1⟩, ⟨"b", 1, 2⟩] : List WordTs).length ≤ 8 :=
  ⟨(transcription_grouping [⟨"a", 0, 1⟩, ⟨"b", 1, 2⟩]).1,
    (transcription_grouping [⟨"a", 0, 1⟩, ⟨"b", 1, 2⟩]).2
      [⟨"a", 0, 1⟩, ⟨"b", 1, 2⟩]
      (by norm_num [groupWords, groupGo])⟩

/-! ## Claim C4 — chunker bound and round trip -/

/-- The single-character split never returns an empty piece list. -/
theorem splitCharPred_ne_nil (p : Char → Bool) (l : List Char) :
    splitCharPred p l ≠ [] := by
  induction l with
  | nil => simp [splitCharPred]
  | cons c rest ih =>
    rw [splitCharPred]
    by_cases h : p c = true
    · simp [h]
    · rw [if_neg h]
      cases hrec : splitCharPred p rest with
      | nil => exact absurd hrec ih
      | cons hd t => simp

/-- No piece of the single-character split contains a separator
character. -/
theorem splitCharPred_sep_free (p : Char → Bool) (l : List Char) :
    ∀ piece ∈ splitCharPred p l, ∀ c ∈ piece, ¬ p c := by
  induction l with
  | nil =>
    intro piece hp c hc
    simp [splitCharPred] at hp
    subst hp
    simp at hc
  | cons a rest ih =>
    intro piece hp c hc
    rw [splitCharPred] at hp
    by_cases h : p a = true
    · rw [if_pos h] at hp
      rcases List.mem_cons.mp hp with h1 | h1
      · subst h1; simp at hc
      · exact ih piece h1 c hc
    · rw [if_neg h] at hp
      cases hrec : splitCharPred p rest with
      | nil => exact absurd hrec (splitCharPred_ne_nil p rest)
      | cons hd t =>
        rw [hrec] at hp
        rcases List.mem_cons.mp hp with h1 | h1
        · subst h1
          rcases List.mem_cons.mp hc with h2 | h2
          · subst h2; exact h
          · exact ih hd (by rw [hrec]; exact List.mem_cons_self _ _) c h2
        · exact ih piece (by rw [hrec]; exact List.mem_cons_of_mem _ h1) c hc

/-- One word-packing step preserves the chunk bound: a grown chunk fits by
the guard, and a restarted chunk is a single word. -/
theorem wordPackStep_inv (st : List String × String) (w : String)
    (hw : ' ' ∉ w.toList) (h1 : ∀ c ∈ st.1, ChunkOk c) (h2 : ChunkOk st.2) :
    (∀ c ∈ (wordPackStep st w).1, ChunkOk c) ∧ ChunkOk (wordPackStep st w).2 := by
  unfold wordPackStep
  by_cases hfit : (st.2 ++ " " ++ w).length ≤ MAX_CAPTION_LENGTH
  · rw [if_pos hfit]
    refine ⟨h1, ?_⟩
    by_cases hempty : st.2 = ""
    · rw [if_pos hempty]
      left
      rw [hempty] at hfit
      rw [String.length_append, String.length_append] at hfit
      have h0 : ("" : String).length = 0 := rfl
      have hsp : (" " : String).length = 1 := rfl
      rw [h0, hsp] at hfit
      show w.length ≤ MAX_CAPTION_LENGTH
      omega
    · rw [if_neg hempty]
      exact Or.inl hfit
  · rw [if_neg hfit]
    constructor
    · intro c hc
      by_cases hempty : st.2 = ""
      · rw [if_pos hempty] at hc
        exact h1 c hc
      · rw [if_neg hempty] at hc
        rcases List.mem_append.mp hc with h | h
        · exact h1 c h
        · simp at h; subst h; exact h2
    · exact Or.inr hw

/-- The word-packing fold preserves the chunk bound. -/
theorem wordPack_foldl_inv (words : List String) :
    ∀ st : List String × String, (∀ w ∈ words, ' ' ∉ w.toList) →
      (∀ c ∈ st.1, ChunkOk c) → ChunkOk st.2 →
      (∀ c ∈ (words.foldl wordPackStep st).1, ChunkOk c) ∧
        ChunkOk (words.foldl wordPackStep st).2 := by
  induction words with
  | nil => intro st _ h1 h2; exact ⟨h1, h2⟩
  | cons w rest ih =>
    intro st hw h1 h2
    have step := wordPackStep_inv st w (hw w (List.mem_cons_self _ _)) h1 h2
    exact ih (wordPackStep st w) (fun x hx => hw x (List.mem_cons_of_mem _ hx)) step.1 step.2

/-- Every chunk emitted by the word-packing loop is within the cap or a
single whitespace-free word. -/
theorem wordPack_ok (words : List String) (hw : ∀ w ∈ words, ' ' ∉ w.toList) :
    ∀ c ∈ wordPack words, ChunkOk c := by
  intro c hc
  simp only [wordPack] at hc
  obtain ⟨h1, h2⟩ :=
    wordPack_foldl_inv words ([], "") hw (by simp) (Or.inl (by decide))
  by_cases hemp : (words.foldl wordPackStep ([], "")).2 = ""
  · rw [if_pos hemp] at hc
    exact h1 c hc
  · rw [if_neg hemp] at hc
    rcases List.mem_append.mp hc with h | h
    · exact h1 c h
    · simp at h; subst h; exact h2

/-- Processing a comma part preserves the chunk bound. -/
theorem processPart_ok (result : List String) (part : String)
    (h : ∀ c ∈ result, ChunkOk c) : ∀ c ∈ processPart result part, ChunkOk c := by
  intro c hc
  unfold processPart at hc
  by_cases hfit : part.length ≤ MAX_CAPTION_LENGTH
  · rw [if_pos hfit] at hc
    rcases List.mem_append.mp hc with h1 | h1
    · exact h c h1
    · simp at h1; subst h1; exact Or.inl hfit
  · rw [if_neg hfit] at hc
    rcases List.mem_append.mp hc with h1 | h1
    · exact h c h1
    · refine wordPack_ok _ ?_ c h1
      intro w hwmem
      rcases List.mem_map.mp hwmem with ⟨piece, hpiece, rfl⟩
      intro hsp
      exact splitCharPred_sep_free isSpaceChar part.toList piece hpiece ' ' hsp rfl

/-- Folding comma parts preserves the chunk bound. -/
theorem foldl_processPart_ok (parts : List String) :
    ∀ result, (∀ c ∈ result, ChunkOk c) →
      ∀ c ∈ parts.foldl processPart result, ChunkOk c := by
  induction parts with
  | nil => intro result h c hc; exact h c hc
  | cons p rest ih =>
    intro result h c hc
    exact ih (processPart result p) (processPart_ok result p h) c hc

/-- Processing a sentence preserves the chunk bound. -/
theorem processSentence_ok (result : List String) (sentence : String)
    (h : ∀ c ∈ result, ChunkOk c) :
    ∀ c ∈ processSentence result sentence, ChunkOk c := by
  intro c hc
  unfold processSentence at hc
  by_cases hfit : sentence.length ≤ MAX_CAPTION_LENGTH
  · rw [if_pos hfit] at hc
    rcases List.mem_append.mp hc with h1 | h1
    · exact h c h1
    · simp at h1; subst h1; exact Or.inl hfit
  · rw [if_neg hfit] at hc
    exact foldl_processPart_ok _ result h c hc

/-- Folding sentences preserves the chunk bound. -/
theorem foldl_processSentence_ok (sentences : List String) :
    ∀ result, (∀ c ∈ result, ChunkOk c) →
      ∀ c ∈ sentences.foldl processSentence result, ChunkOk c := by
  induction sentences with
  | nil => intro result h c hc; exact h c hc
  | cons s rest ih =>
    intro result h c hc
    exact ih (processSentence result s) (processSentence_ok result s h) c hc

/-- C4 counterexample: the claim is false as stated.  A one-hundred letter
word comes back as a chunk longer than the cap of 80, and joining the chunks
with a single space does not reconstruct the text modulo whitespace: the
caption chunker deletes the sentence-ending punctuation, and the Google-TTS
chunker drops a trailing fragment with no closing punctuation. -/
theorem chunker_counterexample :
    (∃ c ∈ splitIntoSentences longWord, MAX_CAPTION_LENGTH < c.length) ∧
    normalizeWhitespace (String.intercalate " " (splitIntoSentences "Hi. Yo.")) ≠
      normalizeWhitespace "Hi. Yo." ∧
    normalizeWhitespace (String.intercalate " " (chunksFreeTTS "Hi. Yo")) ≠
      normalizeWhitespace "Hi. Yo" := by
  refine ⟨by decide, by decide, by decide⟩

/-- C4 (amended): every chunk returned by the caption chunker has length at
most 80 or contains no space, so a word is never split across chunks; the
join round trip of the original claim fails because the sentence-level split
discards the punctuation (and the TTS chunker drops an unterminated tail),
as the counterexample records. -/
theorem splitIntoSentences_chunk_bound (text : String) (c : String)
    (hc : c ∈ splitIntoSentences text) :
    c.length ≤ MAX_CAPTION_LENGTH ∨ ' ' ∉ c.toList := by
  have hmem : c ∈
      (((splitCharPred isSentEnd text.toList).map
        (fun cs => jsTrim (String.mk cs))).filter (fun s => s ≠ "")).foldl
        processSentence [] := by
    simpa [splitIntoSentences] using hc
  exact foldl_processSentence_ok _ [] (by simp) c hmem

/-- C4 witness: the one-hundred letter word is its own chunk and contains no
space. -/
theorem splitIntoSentences_chunk_bound_witness :
    longWord.length ≤ MAX_CAPTION_LENGTH ∨ ' ' ∉ longWord.toList :=
  splitIntoSentences_chunk_bound longWord longWord (by decide)

/-! ## Claim C5 — script alignment coverage -/

/-- Rounding to one decimal is monotone. -/
theorem round10_mono {a b : ℚ} (h : a ≤ b) : round10 a ≤ round10 b := by
  unfold round10 jsRound
  have hf : (⌊a * 10 + 1/2⌋ : ℤ) ≤ ⌊b * 10 + 1/2⌋ :=
    Int.floor_le_floor (by linarith)
  have hq : ((⌊a * 10 + 1/2⌋ : ℤ) : ℚ) ≤ ((⌊b * 10 + 1/2⌋ : ℤ) : ℚ) := by
    exact_mod_cast hf
  linarith

/-- Rounding to one decimal moves a value by at most one twentieth. -/
theorem round10_abs_le (q : ℚ) : |round10 q - q| ≤ 1/20 := by
  unfold round10 jsRound
  have h1 : ((⌊q * 10 + 1/2⌋ : ℤ) : ℚ) ≤ q * 10 + 1/2 := Int.floor_le _
  have h2 : q * 10 + 1/2 - 1 < ((⌊q * 10 + 1/2⌋ : ℤ) : ℚ) := Int.sub_one_lt_floor _
  rw [abs_le]
  constructor <;> linarith

/-- Rounding zero gives zero. -/
theorem round10_zero : round10 0 = 0 := by
  norm_num [round10, jsRound, Int.floor_eq_iff]

/-- The caption at position i of generateFromScript, on a nonblank script:
the rounded share boundaries at i and i plus one. -/
theorem generateFromScript_getElem (script : String) (D : ℚ)
    (hscript : ¬ jsTrim script = "") (i : ℕ) :
    (generateFromScript script D)[i]? =
      ((splitIntoSentences script)[i]?).map (fun s =>
        (⟨round10 ((i : ℚ) * (D / ((splitIntoSentences script).length : ℚ))),
          round10 (((i : ℚ) + 1) * (D / ((splitIntoSentences script).length : ℚ))),
          jsTrim s⟩ : Caption)) := by
  simp only [generateFromScript, hscript, if_false, List.getElem?_map, List.getElem?_enum]
  cases h : (splitIntoSentences script)[i]? <;> simp

/-- The caption list of generateFromScript has one caption per sentence. -/
theorem generateFromScript_length (script : String) (D : ℚ)
    (hscript : ¬ jsTrim script = "") :
    (generateFromScript script D).length = (splitIntoSentences script).length := by
  simp [generateFromScript, hscript]

/-- C5 (amended): when the script is nonblank and yields at least one
sentence and the duration is nonnegative, the first caption starts exactly
at 0, the last caption ends at the duration rounded to one decimal (within
one twentieth of a second of the duration, and exactly the duration whenever
ten times the duration is an integer), consecutive captions are contiguous,
and each caption has nondecreasing times; the exact boundaries are the
rounded values of the even shares, not the shares themselves. -/
theorem generateFromScript_coverage (script : String) (D : ℚ)
    (hscript : ¬ jsTrim script = "") (hS : splitIntoSentences script ≠ [])
    (hD : 0 ≤ D) :
    ((generateFromScript script D).head?.map Caption.startTime = some 0) ∧
    ((generateFromScript script D).getLast?.map Caption.endTime = some (round10 D)) ∧
    |round10 D - D| ≤ 1/20 ∧
    (∀ (i : ℕ) (c c' : Caption), (generateFromScript script D)[i]? = some c →
      (generateFromScript script D)[i+1]? = some c' → c.endTime = c'.startTime) ∧
    (∀ c ∈ generateFromScript script D, c.startTime ≤ c.endTime) := by
  have hN : 0 < (splitIntoSentences script).length := List.length_pos.mpr hS
  have hNQ : (((splitIntoSentences script).length : ℚ)) ≠ 0 := by
    exact_mod_cast Nat.pos_iff_ne_zero.mp hN
  have ht : 0 ≤ D / ((splitIntoSentences script).length : ℚ) :=
    div_nonneg hD (by positivity)
  obtain ⟨s0, hs0⟩ : ∃ s, (splitIntoSentences script)[0]? = some s := by
    cases h : (splitIntoSentences script)[0]? with
    | none =>
      rw [List.getElem?_eq_none_iff] at h
      omega
    | some s => exact ⟨s, rfl⟩
  refine ⟨?_, ?_, round10_abs_le D, ?_, ?_⟩
  · rw [List.head?_eq_getElem?, generateFromScript_getElem script D hscript 0, hs0]
    simp [round10_zero]
  · obtain ⟨sl, hsl⟩ :
        ∃ s, (splitIntoSentences script)[(splitIntoSentences script).length - 1]? = some s := by
      cases h : (splitIntoSentences script)[(splitIntoSentences script).length - 1]? with
      | none =>
        rw [List.getElem?_eq_none_iff] at h
        omega
      | some s => exact ⟨s, rfl⟩
    rw [List.getLast?_eq_getElem?, generateFromScript_length script D hscript,
      generateFromScript_getElem script D hscript _, hsl]
    have hcast : (((splitIntoSentences script).length - 1 : ℕ) : ℚ) + 1
        = ((splitIntoSentences script).length : ℚ) := by
      rw [Nat.cast_sub (by omega)]
      ring
    have hmul : (((splitIntoSentences script).length : ℚ))
        * (D / ((splitIntoSentences script).length : ℚ)) = D := by
      rw [mul_comm, div_mul_cancel₀ D hNQ]
    simp only [Option.map_some']
    rw [hcast, hmul]
  · intro i c c' hc hc'
    rw [generateFromScript_getElem script D hscript i] at hc
    rw [generateFromScript_getElem script D hscript (i+1)] at hc'
    cases hSi : (splitIntoSentences script)[i]? with
    | none => rw [hSi] at hc; simp at hc
    | some s =>
      rw [hSi] at hc
      cases hSj : (splitIntoSentences script)[i+1]? with
      | none => rw [hSj] at hc'; simp at hc'
      | some s' =>
        rw [hSj] at hc'
        simp only [Option.map_some', Option.some.injEq] at hc hc'
        subst hc
        subst hc'
        show round10 (((i : ℚ) + 1) * (D / ((splitIntoSentences script).length : ℚ)))
          = round10 (((i + 1 : ℕ) : ℚ) * (D / ((splitIntoSentences script).length : ℚ)))
        congr 1
        push_cast
        ring
  · intro c hc
    obtain ⟨i, hi⟩ := List.mem_iff_getElem?.mp hc
    rw [generateFromScript_getElem script D hscript i] at hi
    cases hSi : (splitIntoSentences script)[i]? with
    | none => rw [hSi] at hi; simp at hi
    | some s =>
      rw [hSi] at hi
      simp only [Option.map_some', Option.some.injEq] at hi
      subst hi
      exact round10_mono (mul_le_mul_of_nonneg_right (by linarith) ht)

/-- C5 counterexample: the claim is false as stated.  For a one-sentence
script over a video of 10.25 seconds the only caption ends at 10.3 (the
rounded value), not exactly at the duration, so the segments are not the
exact even shares. -/
theorem generateFromScript_counterexample :
    ((generateFromScript "Hi" (41/4)).getLast?.map Caption.endTime
        = some (103/10)) ∧ (103/10 : ℚ) ≠ 41/4 := by
  constructor
  · have hne : ¬ jsTrim "Hi" = "" := by decide
    have hs : splitIntoSentences "Hi" = ["Hi"] := by decide
    rw [List.getLast?_eq_getElem?, generateFromScript_length "Hi" (41/4) hne, hs]
    have hidx : (["Hi"] : List String).length - 1 = 0 := by simp
    rw [hidx, generateFromScript_getElem "Hi" (41/4) hne 0, hs]
    norm_num [round10, jsRound, Int.floor_eq_iff]
  · norm_num

/-- C5 witness: a two-sentence script over a 10 second video, with captions
from 0 to 5 and 5 to 10. -/
theorem generateFromScript_coverage_witness :
    ((generateFromScript "Hi. Yo." 10).head?.map Caption.startTime = some 0) ∧
    ((generateFromScript "Hi. Yo." 10).getLast?.map Caption.endTime = some (round10 10)) ∧
    |round10 (10:ℚ) - 10| ≤ 1/20 ∧
    (∀ (i : ℕ) (c c' : Caption), (generateFromScript "Hi. Yo." 10)[i]? = some c →
      (generateFromScript "Hi. Yo." 10)[i+1]? = some c' → c.endTime = c'.startTime) ∧
    (∀ c ∈ generateFromScript "Hi. Yo." 10, c.startTime ≤ c.endTime) :=
  generateFromScript_coverage "Hi. Yo." 10 (by decide) (by decide) (by norm_num)

/-! ## Claim C2 — append-only version history -/

/-- A dub run whose external calls all succeed appends exactly one record at
the end of the version list. -/
theorem dubRun_ok (e : DubEnv) (vs : List VersionRecord)
    (he : dubEnvOk e = true) (hvs : vs ≠ []) :
    ∃ r, dubRun e vs = (true, vs ++ [r]) := by
  have hempty : vs.isEmpty = false := by
    cases vs with
    | nil => exact absurd rfl hvs
    | cons a t => rfl
  simp only [dubEnvOk, Bool.and_eq_true] at he
  obtain ⟨⟨⟨⟨⟨⟨⟨⟨h1, h2⟩, h3⟩, h4⟩, h5⟩, h6⟩, h7⟩, h8⟩, h9⟩ := he
  obtain ⟨caps, hcaps⟩ : ∃ x, e.transcribe = .ok x := by
    cases h : e.transcribe with
    | ok x => exact ⟨x, rfl⟩
    | error m => rw [h] at h3; simp [Except.toOption] at h3
  obtain ⟨translated, htrans⟩ : ∃ x, e.translate = .ok x := by
    cases h : e.translate with
    | ok x => exact ⟨x, rfl⟩
    | error m => rw [h] at h4; simp [Except.toOption] at h4
  obtain ⟨videoDuration, hprobe⟩ : ∃ x, e.probe = .ok x := by
    cases h : e.probe with
    | ok x => exact ⟨x, rfl⟩
    | error m => rw [h] at h5; simp [Except.toOption] at h5
  obtain ⟨p, hsynth⟩ : ∃ p, e.synth = .ok (some p) := by
    cases h : e.synth with
    | error m => rw [h] at h6; simp at h6
    | ok o =>
      cases o with
      | none => rw [h] at h6; simp at h6
      | some p => exact ⟨p, rfl⟩
  obtain ⟨metaDuration, hmeta⟩ : ∃ x, e.metadata = .ok x := by
    cases h : e.metadata with
    | ok x => exact ⟨x, rfl⟩
    | error m => rw [h] at h8; simp [Except.toOption] at h8
  refine ⟨dubRecord e translated metaDuration, ?_⟩
  simp [dubRun, dubRunE, hempty, h1, h2, hcaps, htrans, hprobe, hsynth, h7, hmeta, h9]

/-- A dub run that fails leaves the persisted version list unchanged. -/
theorem dubRun_failed_frame (e : DubEnv) (vs : List VersionRecord)
    (h : (dubRun e vs).1 = false) : (dubRun e vs).2 = vs := by
  cases hrun : dubRunE e vs with
  | error m => simp [dubRun, hrun]
  | ok w => simp [dubRun, hrun] at h

/-- A voiceover run whose synthesis, video lookup, mux and save all succeed
on a project with a version list appends exactly the voiceover record. -/
theorem voiceoverRun_ok (e : VoiceoverEnv) (vs : List VersionRecord)
    (he : voEnvOk e = true) (hvs : vs ≠ []) :
    voiceoverRun e vs = (.appended, vs ++ [voRecord e]) := by
  simp only [voEnvOk, Bool.and_eq_true] at he
  obtain ⟨⟨⟨hsynth, h1⟩, h2⟩, h3⟩ := he
  obtain ⟨p, hp⟩ : ∃ p, e.synth = .ok (some p) := by
    cases h : e.synth with
    | error m => rw [h] at hsynth; simp at hsynth
    | ok o =>
      cases o with
      | none => rw [h] at hsynth; simp at hsynth
      | some p => exact ⟨p, rfl⟩
  have hempty : vs.isEmpty = false := by
    cases vs with
    | nil => exact absurd rfl hvs
    | cons a t => rfl
  simp [voiceoverRun, hp, hempty, h1, h2, h3]

/-- A voiceover run either appends exactly the voiceover record or leaves
the persisted version list unchanged. -/
theorem voiceoverRun_cases (e : VoiceoverEnv) (vs : List VersionRecord) :
    voiceoverRun e vs = (.appended, vs ++ [voRecord e]) ∨
      (voiceoverRun e vs).2 = vs := by
  unfold voiceoverRun
  cases e.synth with
  | error m => right; rfl
  | ok o =>
    dsimp only
    by_cases hsave : (!e.saveOk) = true
    · rw [if_pos hsave]; right; rfl
    · rw [if_neg hsave]
      by_cases hp : (!vs.isEmpty && e.videoFileExists && o.isSome && e.muxOk) = true
      · rw [if_pos hp]; left; rfl
      · rw [if_neg hp]; right; rfl

/-- A fully successful workflow step appends exactly one record. -/
theorem runStep_ok (r : RunEnv) (vs : List VersionRecord)
    (h : runOk r = true) (hvs : vs ≠ []) :
    ∃ new, runStep vs r = (true, vs ++ [new]) := by
  cases r with
  | dub e =>
    obtain ⟨rec, hrec⟩ := dubRun_ok e vs h hvs
    exact ⟨rec, by simp [runStep, hrec]⟩
  | vo e =>
    have hvo := voiceoverRun_ok e vs h hvs
    exact ⟨voRecord e, by simp [runStep, hvo]⟩

/-- Iterating fully successful workflow runs grows the version list by one
record per run and preserves its head. -/
theorem applyRuns_ok (runs : List RunEnv) :
    ∀ vs : List VersionRecord, vs ≠ [] → (∀ r ∈ runs, runOk r = true) →
      (applyRuns vs runs).length = vs.length + runs.length ∧
      (applyRuns vs runs).head? = vs.head? := by
  induction runs with
  | nil => intro vs _ _; simp [applyRuns]
  | cons r rest ih =>
    intro vs hvs hok
    obtain ⟨new, hstep⟩ := runStep_ok r vs (hok r (List.mem_cons_self _ _)) hvs
    have happly : applyRuns vs (r :: rest) = applyRuns (vs ++ [new]) rest := by
      simp [applyRuns, hstep]
    have hres := ih (vs ++ [new]) (by simp) (fun x hx => hok x (List.mem_cons_of_mem _ hx))
    constructor
    · rw [happly, hres.1]
      have hl : (vs ++ [new]).length = vs.length + 1 := by simp
      rw [hl]
      simp only [List.length_cons]
      omega
    · rw [happly, hres.2]
      cases vs with
      | nil => exact absurd rfl hvs
      | cons a t => simp

/-- C2: the version history is append-only.  A dub run with all external
calls succeeding appends exactly one new record at the end; a failed dub run
leaves the persisted list unchanged; a voiceover run reaching the appended
state appends exactly the voiceover record; a voiceover run that does not
reach the appended state (failure, or the degraded audio-only path) appends
nothing; and after N fully successful runs starting from the original upload
the list has exactly N plus one entries with the original entry still first
and unchanged. -/
theorem version_history_append_only :
    (∀ (e : DubEnv) (vs : List VersionRecord), dubEnvOk e = true → vs ≠ [] →
      ∃ r, dubRun e vs = (true, vs ++ [r])) ∧
    (∀ (e : DubEnv) (vs : List VersionRecord), (dubRun e vs).1 = false →
      (dubRun e vs).2 = vs) ∧
    (∀ (e : VoiceoverEnv) (vs : List VersionRecord), voEnvOk e = true → vs ≠ [] →
      voiceoverRun e vs = (.appended, vs ++ [voRecord e])) ∧
    (∀ (e : VoiceoverEnv) (vs : List VersionRecord),
      (voiceoverRun e vs).1 ≠ VoOutcome.appended → (voiceoverRun e vs).2 = vs) ∧
    (∀ (orig : VersionRecord) (runs : List RunEnv),
      (∀ r ∈ runs, runOk r = true) →
      (applyRuns [orig] runs).length = runs.length + 1 ∧
      (applyRuns [orig] runs).head? = some orig) := by
  refine ⟨dubRun_ok, dubRun_failed_frame, voiceoverRun_ok, ?_, ?_⟩
  · intro e vs h
    rcases voiceoverRun_cases e vs with hc | hc
    · rw [hc] at h
      exact absurd rfl h
    · exact hc
  · intro orig runs hok
    have hres := applyRuns_ok runs [orig] (by simp) hok
    refine ⟨?_, ?_⟩
    · rw [hres.1]
      simp only [List.length_singleton]
      omega
    · rw [hres.2]
      rfl

/-- C2 witness: one successful dub run followed by one successful voiceover
run on a project holding only its original upload leaves three records with
the original one first. -/
theorem version_history_append_only_witness :
    (applyRuns [sampleOriginal] [RunEnv.dub sampleDubEnv, RunEnv.vo sampleVoEnv]).length
        = 2 + 1 ∧
    (applyRuns [sampleOriginal] [RunEnv.dub sampleDubEnv, RunEnv.vo sampleVoEnv]).head?
        = some sampleOriginal :=
  version_history_append_only.2.2.2.2 sampleOriginal
    [RunEnv.dub sampleDubEnv, RunEnv.vo sampleVoEnv] (by decide)
